import Mathlib

/-!
Verification of the quant-demo signal-ensemble and risk-managed backtest core.

This file gives a shallow embedding, in Lean 4, of the Python sources
`position_manager.py`, `strategy_ensemble.py`, `backtest.py` and
`backtest_v3.py` of the quant-demo repository, and proves (or refutes)
the specification claims about them.

Modelling conventions:
* Python floats are modelled as exact rationals (`ℚ`).  Pandas `NaN`
  entries (rolling statistics before the window is full, `diff()` at the
  first row) are modelled as `Option` values, with `none` playing the
  role of `NaN`; any float comparison with `NaN` is `False`, which the
  embedding reproduces by matching on the `Option`.
* `rolling(w).mean()` / `rolling(w).std()` read the trailing window of
  `w` rows ending at the current row, and are `NaN` until `w` rows
  exist; `std` uses the pandas default `ddof = 1` (sample deviation).
* The only genuinely irrational quantity is a rolling standard
  deviation.  Where the source compares a single standard deviation
  against a rational bound (the Bollinger-band tests), the comparison is
  rendered exactly by squaring, which is equivalent for a positive
  deviation; where standard deviations are averaged (the regime
  detector's volatility rule) the embedding uses `Real.sqrt` and the
  definition is `noncomputable`, faithful to the float code up to exact
  real arithmetic.
* Python `int(x)` truncates toward zero; it is modelled by `truncQ`.
-/

/-- Trading signal, `strategy_ensemble.Signal` (`BUY = 1`, `SELL = -1`,
`HOLD = 0`). -/
inductive Signal where
  | BUY
  | SELL
  | HOLD
deriving DecidableEq, Repr

/-- Numeric value of a signal, the `.value` of the Python enum. -/
def Signal.value : Signal → ℤ
  | .BUY => 1
  | .SELL => -1
  | .HOLD => 0

/-- Market regime, `strategy_ensemble.MarketRegime`. -/
inductive MarketRegime where
  | TREND_UP
  | TREND_DOWN
  | MEAN_REVERSION
deriving DecidableEq, Repr

/-- Python `int(x)` applied to an exact rational: truncation toward
zero. -/
def truncQ (q : ℚ) : ℤ := q.num / (q.den : ℤ)

/-- Mean of a list of rationals (`sum / len`; `0` for the empty list,
which stands for the float `NaN` and is only ever produced behind an
`Option` guard). -/
def listMean (l : List ℚ) : ℚ := l.sum / l.length

/-- Sample variance of a list of rationals (pandas `std(ddof=1)`
squared): `Σ (x - mean)² / (n - 1)`. -/
def sampleVar (l : List ℚ) : ℚ :=
  (l.map (fun x => (x - listMean l) ^ 2)).sum / ((l.length : ℚ) - 1)

/-! ## RiskManager (`position_manager.py`) -/

/-- `RiskManager.check_stop_loss`: the loss percentage
`(current - entry) / entry` has fallen to `max_loss_pct` (a negative
threshold). -/
def checkStopLoss (maxLossPct : ℚ) (entryPrice currentPrice : ℚ) : Bool :=
  (currentPrice - entryPrice) / entryPrice ≤ maxLossPct

/-- `RiskManager.check_take_profit`: if the unrealized gain has reached
`take_profit_pct`, the exit is confirmed only when the current price has
pulled back below `highest_price * (1 - trailing_stop_pct)`; otherwise
no exit. -/
def checkTakeProfit (takeProfitPct trailingStopPct : ℚ)
    (entryPrice currentPrice highestPrice : ℚ) : Bool :=
  let profitPct := (currentPrice - entryPrice) / entryPrice
  if profitPct ≥ takeProfitPct then
    let trailingStopPrice := highestPrice * (1 - trailingStopPct)
    currentPrice ≤ trailingStopPrice
  else
    false

/-! ## Position ledger (`position_manager.Position`, `position_manager.Portfolio`)

The Python `Portfolio.positions` is a `dict` keyed by symbol code; it is
modelled as an association list in insertion order.  `Position.entry_date`
is stamped with the wall-clock date (`datetime.now()`) in the source; the
date takes part in no computation and is modelled by the empty string. -/

/-- One open position (`position_manager.Position`).  On creation the
high-water price `highest_price` starts at the average cost. -/
structure Position where
  code : String
  name : String
  quantity : ℚ
  avgCost : ℚ
  entryDate : String
  highestPrice : ℚ
deriving DecidableEq, Repr

/-- The portfolio state (`position_manager.Portfolio`): cash plus the
symbol-keyed position ledger. -/
structure Portfolio where
  initialBalance : ℚ
  cash : ℚ
  positions : List (String × Position)
deriving DecidableEq, Repr

/-- A fresh portfolio, `Portfolio.__init__`. -/
def Portfolio.mk0 (initialBalance : ℚ) : Portfolio :=
  ⟨initialBalance, initialBalance, []⟩

/-- Dictionary lookup `self.positions[code]` / `code in self.positions`. -/
def lookupPos : List (String × Position) → String → Option Position
  | [], _ => none
  | pr :: rest, code => if pr.1 = code then some pr.2 else lookupPos rest code

/-- Dictionary update `self.positions[code] = pos` for a key already
present. -/
def setPos (l : List (String × Position)) (code : String) (pos : Position) :
    List (String × Position) :=
  l.map (fun pr => if pr.1 = code then (code, pos) else pr)

/-- Dictionary deletion `del self.positions[code]`. -/
def erasePos (l : List (String × Position)) (code : String) :
    List (String × Position) :=
  l.filter (fun pr => pr.1 ≠ code)

/-- `Portfolio.buy`: rejected with no mutation when `price * quantity`
exceeds cash; otherwise add to an existing position (recomputing the
weighted average cost) or create a fresh one, then debit cash. -/
def Portfolio.buy (p : Portfolio) (code name : String) (price quantity : ℚ) :
    Bool × Portfolio :=
  let cost := price * quantity
  if cost > p.cash then
    (false, p)
  else
    match lookupPos p.positions code with
    | some pos =>
        let totalCost := pos.avgCost * pos.quantity + price * quantity
        let newQuantity := pos.quantity + quantity
        let pos' := { pos with quantity := newQuantity,
                               avgCost := totalCost / newQuantity }
        (true, { p with positions := setPos p.positions code pos',
                        cash := p.cash - cost })
    | none =>
        let pos' : Position := ⟨code, name, quantity, price, "", price⟩
        (true, { p with positions := p.positions ++ [(code, pos')],
                        cash := p.cash - cost })

/-- `Portfolio.sell`: zero-proceeds no-op without a position; otherwise
the requested quantity (`None` = everything) is clamped to the held
quantity, cash is credited with `price * quantity`, and the position is
deleted once its quantity reaches zero. -/
def Portfolio.sell (p : Portfolio) (code : String) (price : ℚ)
    (quantity : Option ℚ) : ℚ × Portfolio :=
  match lookupPos p.positions code with
  | none => (0, p)
  | some pos =>
      let q := match quantity with
        | none => pos.quantity
        | some q0 => if q0 ≥ pos.quantity then pos.quantity else q0
      let proceeds := price * q
      let newQuantity := pos.quantity - q
      let positions' :=
        if newQuantity ≤ 0 then erasePos p.positions code
        else setPos p.positions code { pos with quantity := newQuantity }
      (proceeds, { p with cash := p.cash + proceeds, positions := positions' })

/-- One buy or sell call against the ledger (the sell quantity is
optional, as in the source). -/
inductive Call where
  | buy (code name : String) (price quantity : ℚ)
  | sell (code : String) (price : ℚ) (quantity : Option ℚ)

/-- Execute one call, keeping only the resulting portfolio. -/
def applyCall (p : Portfolio) : Call → Portfolio
  | .buy code name price quantity => (p.buy code name price quantity).2
  | .sell code price quantity => (p.sell code price quantity).2

/-- Execute a finite sequence of calls in order. -/
def applyCalls (p : Portfolio) (calls : List Call) : Portfolio :=
  calls.foldl applyCall p

/-- A call whose price and quantity lie in the trading domain
(nonnegative prices, nonnegative quantities; an omitted sell quantity
is unconstrained, so its default reading is `0`). -/
def Call.valid : Call → Prop
  | .buy _ _ price quantity => 0 ≤ price ∧ 0 ≤ quantity
  | .sell _ price quantity => 0 ≤ price ∧ 0 ≤ quantity.getD 0

/-- A call whose buy quantity (if it is a buy) is strictly positive. -/
def Call.buyPositive : Call → Prop
  | .buy _ _ _ quantity => 0 < quantity
  | .sell _ _ _ => True

/-! ## Rolling indicators (`strategy_ensemble.py`)

A price series is the list of daily closes, row `0` first.  Row-indexed
accessor functions model the data-frame columns; materialised column
lists are defined from them below for the look-ahead claim. -/

/-- Close of row `t` (junk `0` out of range; every use is guarded). -/
def closeAt (closes : List ℚ) (t : ℕ) : ℚ := closes.getD t 0

/-- The trailing `w`-row window ending at row `t` (rows `t-w+1 .. t`). -/
def windowAt (closes : List ℚ) (w t : ℕ) : List ℚ :=
  (closes.take (t + 1)).drop (t + 1 - w)

/-- `close.rolling(w).mean()` at row `t`: `NaN` (`none`) until the
window is full. -/
def maAt (closes : List ℚ) (w t : ℕ) : Option ℚ :=
  if t < closes.length ∧ w ≤ t + 1 then some (listMean (windowAt closes w t))
  else none

/-- `close.rolling(w).std(ddof=1)` squared at row `t` — the rolling
sample variance.  The standard deviation itself is its real square
root. -/
def varAt (closes : List ℚ) (w t : ℕ) : Option ℚ :=
  if t < closes.length ∧ w ≤ t + 1 then some (sampleVar (windowAt closes w t))
  else none

/-- The `ma_cross` column of `TrendStrategy.calculate`: `0` by default
(in particular on `NaN` rows, where both float comparisons are false),
`+1` where `ma_short > ma_long`, `-1` where `ma_short < ma_long`. -/
def crossStateAt (closes : List ℚ) (s l t : ℕ) : ℤ :=
  match maAt closes s t, maAt closes l t with
  | some a, some b => if a > b then 1 else if a < b then -1 else 0
  | _, _ => 0

/-- The `ma_signal` column of `TrendStrategy.calculate`:
`ma_cross.diff()` (so `NaN`/`none` at row `0`), with positive changes
clamped to `+1` (golden cross forms) and negative ones to `-1` (death
cross forms). -/
def crossEventAt (closes : List ℚ) (s l t : ℕ) : Option ℤ :=
  if t = 0 ∨ closes.length ≤ t then none
  else
    let d := crossStateAt closes s l t - crossStateAt closes s l (t - 1)
    some (if d > 0 then 1 else if d < 0 then -1 else 0)

/-- `TrendStrategy.get_signal`: `HOLD` below `long_ma` rows of history;
otherwise `BUY` on `ma_signal == 1` at the latest row, `SELL` on
`ma_signal == -1`, and `HOLD` in every other case (a standing golden
cross with no fresh crossover included). -/
def trendGetSignal (closes : List ℚ) (s l : ℕ) : Signal :=
  if closes.length < l then .HOLD
  else
    match crossEventAt closes s l (closes.length - 1) with
    | some d => if d = 1 then .BUY else if d = -1 then .SELL else .HOLD
    | none => .HOLD

/-- `MeanReversionStrategy.get_signal`, in exact arithmetic.  With mean
`m`, sample variance `v` and deviation `σ = √v` over the last `w` rows,
the source tests, in order, `close < lower`, `close > upper`,
`position < 0.2` and `position > 0.8`, where `upper/lower = m ± kσ` and
`position = (close - lower) / (upper - lower)`.  For `σ > 0` and
`k ≥ 0` these are equivalent to sign tests plus squared comparisons:
`close < m - kσ ↔ (m - close > 0 ∧ (m - close)² > k²v)`,
`close > m + kσ ↔ (close - m > 0 ∧ (close - m)² > k²v)`,
`position < 0.2 ↔ close - m < -0.6kσ ↔ (m - close > 0 ∧ (m - close)² > (0.6k)²v)`,
`position > 0.8 ↔ close - m > 0.6kσ ↔ (close - m > 0 ∧ (close - m)² > (0.6k)²v)`.
When `v = 0` all twenty window closes (hence `close` and `m`) coincide,
the band is flat, the float `position` is `0/0 = NaN`, every comparison
is false and the source yields `HOLD`, which the `v = 0` branch
reproduces. -/
def bandGetSignal (closes : List ℚ) (w : ℕ) (k : ℚ) : Signal :=
  if closes.length < w then .HOLD
  else
    let win := windowAt closes w (closes.length - 1)
    let m := listMean win
    let v := sampleVar win
    let c := closeAt closes (closes.length - 1)
    if v = 0 then .HOLD
    else if m - c > 0 ∧ (m - c) ^ 2 > k ^ 2 * v then .BUY
    else if c - m > 0 ∧ (c - m) ^ 2 > k ^ 2 * v then .SELL
    else if m - c > 0 ∧ (m - c) ^ 2 > (3 / 5 * k) ^ 2 * v then .BUY
    else if c - m > 0 ∧ (c - m) ^ 2 > (3 / 5 * k) ^ 2 * v then .SELL
    else .HOLD

open Classical in
/-- `MeanReversionStrategy.get_signal` written with the source's literal
band comparisons over exact real arithmetic: `upper/lower = m ± k·σ`
with `σ` the real square root of the rolling sample variance and
`position = (close - lower) / (upper - lower)`, tested in source order.
The `σ = 0` branch renders the float semantics of a flat window (the
band is a point, `position` is `0/0 = NaN`, every comparison is false,
the outcome `HOLD`), where a naive real division would return `0`.
`bandGetSignalR_eq_bandGetSignal` below proves this definition equal to
the executable `bandGetSignal` for every positive multiplier. -/
noncomputable def bandGetSignalR (closes : List ℚ) (w : ℕ) (k : ℚ) : Signal :=
  if closes.length < w then .HOLD
  else
    let win := windowAt closes w (closes.length - 1)
    let m : ℝ := (listMean win : ℚ)
    let sd : ℝ := Real.sqrt ((sampleVar win : ℚ) : ℝ)
    let upper := m + (k : ℝ) * sd
    let lower := m - (k : ℝ) * sd
    let c : ℝ := (closeAt closes (closes.length - 1) : ℚ)
    if sd = 0 then .HOLD
    else if c < lower then .BUY
    else if c > upper then .SELL
    else if (c - lower) / (upper - lower) < 1 / 5 then .BUY
    else if (c - lower) / (upper - lower) > 4 / 5 then .SELL
    else .HOLD

/-! ## Market regime detector (`MarketRegimeDetector.detect`)

`detect` computes per-row returns `close.pct_change()`, their rolling
20-row sample deviation (the rolling volatility), and compares the
last rolling volatility against 1.2 times the mean of all available
rolling volatilities; volatility values are real square roots of the
rational rolling variances, so this step lives in `ℝ` and the
definition is `noncomputable`. -/

/-- `close.pct_change()` at row `t ≥ 1`: `close[t] / close[t-1] - 1`. -/
def retAt (closes : List ℚ) (t : ℕ) : ℚ :=
  closeAt closes t / closeAt closes (t - 1) - 1

/-- The 20 returns of rows `t-19 .. t`. -/
def retWindow (closes : List ℚ) (t : ℕ) : List ℚ :=
  (List.range 20).map (fun j => retAt closes (t - 19 + j))

/-- `returns.rolling(20).std(ddof=1)` squared at row `t` — the rolling
variance of returns.  The return at row `0` is `NaN`, so the first full
window ends at row `20`. -/
def volVarAt (closes : List ℚ) (t : ℕ) : Option ℚ :=
  if 20 ≤ t ∧ t < closes.length then some (sampleVar (retWindow closes t))
  else none

/-- The list of all defined rolling return variances, in row order —
the non-`NaN` entries of the volatility column. -/
def volVars (closes : List ℚ) : List ℚ :=
  (List.range closes.length).filterMap (volVarAt closes)

/-- The volatility-regime test of `detect`:
`current_vol > avg_vol * 1.2`, where `current_vol` is the last rolling
volatility and `avg_vol` is `volatility.mean()` (the mean over the
non-`NaN` entries, itself `NaN` when there are none).  A comparison
against `NaN` on either side is false. -/
noncomputable def volHigh (closes : List ℚ) : Prop :=
  match volVarAt closes (closes.length - 1) with
  | none => False
  | some v =>
      volVars closes ≠ [] ∧
      Real.sqrt (v : ℝ) >
        (((volVars closes).map (fun u => Real.sqrt (u : ℝ))).sum /
          (volVars closes).length) * (6 / 5)

open Classical in
/-- `MarketRegimeDetector.detect`: fewer than 20 rows returns
`MEAN_REVERSION`; then the volatility override; then `ma20 > ma60` at
the last row decides `TREND_UP` versus `TREND_DOWN` (a `NaN` moving
average makes the float comparison false, hence `TREND_DOWN`). -/
noncomputable def detect (closes : List ℚ) : MarketRegime :=
  if closes.length < 20 then .MEAN_REVERSION
  else if volHigh closes then .MEAN_REVERSION
  else
    match maAt closes 20 (closes.length - 1), maAt closes 60 (closes.length - 1) with
    | some a, some b => if a > b then .TREND_UP else .TREND_DOWN
    | _, _ => .TREND_DOWN

/-! ## Ensemble combiner (`StrategyEnsemble.get_ensemble_signal`)

The fusion stage, taking the already-computed trend, reversion and LLM
signals plus the regime.  With no API key configured the LLM signal is
`HOLD` (contribution 0). -/

/-- The regime-dependent weight triple (trend, reversion, llm). -/
def ensembleWeights (regime : MarketRegime) : ℚ × ℚ × ℚ :=
  match regime with
  | .TREND_UP => (1 / 2, 1 / 5, 3 / 10)
  | .TREND_DOWN => (1 / 2, 1 / 10, 2 / 5)
  | .MEAN_REVERSION => (1 / 5, 1 / 2, 3 / 10)

/-- The weighted ensemble score
`trend.value * w_trend + reversion.value * w_reversion + llm.value * w_llm`. -/
def ensembleScore (trendSig reversionSig llmSig : Signal)
    (regime : MarketRegime) : ℚ :=
  let w := ensembleWeights regime
  (trendSig.value : ℚ) * w.1 + (reversionSig.value : ℚ) * w.2.1 +
    (llmSig.value : ℚ) * w.2.2

/-- The threshold rule on the score: `BUY` above `0.3`, `SELL` below
`-0.3`, `HOLD` otherwise. -/
def ensembleDecision (score : ℚ) : Signal :=
  if score > 3 / 10 then .BUY
  else if score < -(3 / 10) then .SELL
  else .HOLD

/-- `get_ensemble_signal` restricted to its fusion stage: final signal
and score from the three component signals and the regime. -/
def getEnsembleSignal (trendSig reversionSig llmSig : Signal)
    (regime : MarketRegime) : Signal × ℚ :=
  let score := ensembleScore trendSig reversionSig llmSig regime
  (ensembleDecision score, score)

/-! ## Indicator columns (for the no-look-ahead property)

The materialised data-frame columns, one entry per row.  The band
bounds and band position involve the real square root of the rolling
variance, so those columns live in `Option ℝ`.  (Float note: at a flat
window the float `position` is `NaN` where real division by the zero
band width gives `0`; the look-ahead claim only compares a column with
itself on a prefix, so the convention chosen for that junk value is
immaterial.) -/

/-- The `ma_short` / `ma_long` / band-mid column for window `w`. -/
def maColumn (w : ℕ) (closes : List ℚ) : List (Option ℚ) :=
  (List.range closes.length).map (maAt closes w)

/-- The `ma_cross` column. -/
def crossStateColumn (s l : ℕ) (closes : List ℚ) : List ℤ :=
  (List.range closes.length).map (crossStateAt closes s l)

/-- The `ma_signal` (crossover event) column. -/
def crossEventColumn (s l : ℕ) (closes : List ℚ) : List (Option ℤ) :=
  (List.range closes.length).map (crossEventAt closes s l)

/-- The rolling `std` value at row `t`, as a real number. -/
noncomputable def bandStdAt (closes : List ℚ) (w t : ℕ) : Option ℝ :=
  (varAt closes w t).map (fun v => Real.sqrt (v : ℝ))

/-- The `upper` band column entry `ma + k * std` at row `t`. -/
noncomputable def bandUpperAt (closes : List ℚ) (w : ℕ) (k : ℚ) (t : ℕ) :
    Option ℝ :=
  match maAt closes w t, bandStdAt closes w t with
  | some m, some sd => some ((m : ℝ) + (k : ℝ) * sd)
  | _, _ => none

/-- The `lower` band column entry `ma - k * std` at row `t`. -/
noncomputable def bandLowerAt (closes : List ℚ) (w : ℕ) (k : ℚ) (t : ℕ) :
    Option ℝ :=
  match maAt closes w t, bandStdAt closes w t with
  | some m, some sd => some ((m : ℝ) - (k : ℝ) * sd)
  | _, _ => none

/-- The `position` column entry `(close - lower) / (upper - lower)` at
row `t`. -/
noncomputable def bandPositionAt (closes : List ℚ) (w : ℕ) (k : ℚ) (t : ℕ) :
    Option ℝ :=
  match bandLowerAt closes w k t, bandUpperAt closes w k t with
  | some lo, some up => some ((((closeAt closes t : ℚ) : ℝ) - lo) / (up - lo))
  | _, _ => none

/-- The rolling `std` column. -/
noncomputable def bandStdColumn (w : ℕ) (closes : List ℚ) : List (Option ℝ) :=
  (List.range closes.length).map (bandStdAt closes w)

/-- The `upper` band column. -/
noncomputable def bandUpperColumn (w : ℕ) (k : ℚ) (closes : List ℚ) :
    List (Option ℝ) :=
  (List.range closes.length).map (bandUpperAt closes w k)

/-- The `lower` band column. -/
noncomputable def bandLowerColumn (w : ℕ) (k : ℚ) (closes : List ℚ) :
    List (Option ℝ) :=
  (List.range closes.length).map (bandLowerAt closes w k)

/-- The `position` column. -/
noncomputable def bandPositionColumn (w : ℕ) (k : ℚ) (closes : List ℚ) :
    List (Option ℝ) :=
  (List.range closes.length).map (bandPositionAt closes w k)

/-! ## Backtest engine (`backtest.py`, `BacktestEngine`)

Engine configuration (`BacktestConfig`): commission `0.0015`, slippage
`0.001`, stop loss `-0.10`, take profit `+0.20`, trailing stop `0.08`.
The engine tracks only a position flag and the entry price — it holds a
`Portfolio` object but never trades through it, and it records equity
through a closed formula rather than from cash and holdings.

Alongside the engine state the embedding threads a `SpecLedger`, a
second definition that follows the specification's words for the
mark-to-market Equity Point ("cash + position value at that date's
close", realized gains staying in cash): a buy of `s` shares at the
effective price debits `s * price` from cash, a sell credits the whole
position at the effective price, and the day's mark-to-market value is
`cash + quantity * close`.  The ledger observes the engine's trades and
never influences them. -/

/-- One entry of `BacktestEngine.trades`.  Buy entries carry the share
count and a zero profit field; sell entries carry share count `0` and
the realized profit fraction, as in the source dictionaries. -/
structure TradeRec where
  day : ℕ
  action : Signal
  price : ℚ
  shares : ℤ
  profitPct : ℚ
deriving DecidableEq, Repr

/-- The mutable fields of `BacktestEngine` used by `run`. -/
structure EngineState where
  position : Bool
  entryPrice : ℚ
  trades : List TradeRec
  totalTrades : ℕ
  winningTrades : ℕ
  losingTrades : ℕ
  equityCurve : List ℚ
deriving DecidableEq, Repr

/-- The specification-side mark-to-market ledger (cash, held quantity,
and the mark-to-market curve).  This definition follows the spec's
words, not the engine code, which tracks no cash. -/
structure SpecLedger where
  cash : ℚ
  qty : ℤ
  mtmCurve : List ℚ
deriving DecidableEq, Repr

/-- `BacktestEngine.execute_trade` with the spec ledger observing: a
`BUY` while flat fills at `close + (commission + slippage)` and sizes
`int(initial_capital * 0.3 / buy_price)` shares; a `SELL` while long
fills at `close - (commission + slippage)` and classifies the trade as
winning or losing.  Anything else is a no-op. -/
def engineExec (cap : ℚ) (sig : Signal) (price : ℚ) (day : ℕ) :
    EngineState × SpecLedger → EngineState × SpecLedger
  | (s, led) =>
    if sig = .BUY ∧ s.position = false then
      let commission := price * (3 / 2000)
      let slippage := price * (1 / 1000)
      let buyPrice := price + commission + slippage
      let maxShares := truncQ (cap * (3 / 10) / buyPrice)
      if maxShares > 0 then
        ({ s with position := true, entryPrice := buyPrice,
                  totalTrades := s.totalTrades + 1,
                  trades := s.trades ++ [⟨day, .BUY, buyPrice, maxShares, 0⟩] },
         { led with cash := led.cash - maxShares * buyPrice,
                    qty := led.qty + maxShares })
      else (s, led)
    else if sig = .SELL ∧ s.position = true then
      let commission := price * (3 / 2000)
      let slippage := price * (1 / 1000)
      let sellPrice := price - commission - slippage
      let profitPct := (sellPrice - s.entryPrice) / s.entryPrice
      ({ s with position := false, entryPrice := 0,
                winningTrades :=
                  if profitPct > 0 then s.winningTrades + 1 else s.winningTrades,
                losingTrades :=
                  if profitPct > 0 then s.losingTrades else s.losingTrades + 1,
                trades := s.trades ++ [⟨day, .SELL, sellPrice, 0, profitPct⟩] },
       { led with cash := led.cash + (led.qty : ℚ) * sellPrice, qty := 0 })
    else (s, led)

/-- `BacktestEngine.check_stop_loss_take_profit`: while long, a loss at
or below `-10%` forces a sell; at a gain of `+20%` or more the source
compares the entry price against `close * (1 - 0.08)` (its own
trailing-stop formula) and sells when the entry lies below it. -/
def engineCheckExit (cap : ℚ) (price : ℚ) (day : ℕ)
    (sl : EngineState × SpecLedger) : EngineState × SpecLedger :=
  if sl.1.position = false then sl
  else
    let profitPct := (price - sl.1.entryPrice) / sl.1.entryPrice
    if profitPct ≤ -(1 / 10) then engineExec cap .SELL price day sl
    else if profitPct ≥ 1 / 5 ∧ sl.1.entryPrice < price * (1 - 2 / 25) then
      engineExec cap .SELL price day sl
    else sl

/-- `BacktestEngine.get_signal`: `HOLD` before day 60; otherwise the
trend (5/20) and reversion (20, 2σ) signals on the prefix up to day `i`
are fused with weights 0.7/0.3 in a trending regime and 0.2/0.8 in a
mean-reverting one, with the stricter `±0.5` decision threshold. -/
noncomputable def engineGetSignal (closes : List ℚ) (i : ℕ) : Signal :=
  if i < 60 then .HOLD
  else
    let subset := closes.take (i + 1)
    let trendSig := trendGetSignal subset 5 20
    let reversionSig := bandGetSignal subset 20 2
    let regime := detect subset
    let score : ℚ :=
      match regime with
      | .TREND_UP =>
          (trendSig.value : ℚ) * (7 / 10) + (reversionSig.value : ℚ) * (3 / 10)
      | .TREND_DOWN =>
          (trendSig.value : ℚ) * (7 / 10) + (reversionSig.value : ℚ) * (3 / 10)
      | .MEAN_REVERSION =>
          (reversionSig.value : ℚ) * (4 / 5) + (trendSig.value : ℚ) * (1 / 5)
    if score > 1 / 2 then .BUY
    else if score < -(1 / 2) then .SELL
    else .HOLD

/-- One day of `BacktestEngine.run` with the day's ensemble signal
passed in: exit check first, then (only if flat) a possible entry on
the signal, then the Equity Point:
`initial_capital * 0.3 + (close - entry) * (initial_capital * 0.3 / entry)`
while long and `initial_capital` while flat.  The ledger appends the
spec's mark-to-market value `cash + qty * close`. -/
def engineDayWith (cap : ℚ) (closes : List ℚ) (sig : Signal)
    (sl : EngineState × SpecLedger) (i : ℕ) : EngineState × SpecLedger :=
  let price := closeAt closes i
  let sl1 := engineCheckExit cap price i sl
  let sl2 :=
    if sl1.1.position = false then engineExec cap sig price i sl1
    else sl1
  match sl2 with
  | (s2, led2) =>
    let equity : ℚ :=
      if s2.position = true then
        cap * (3 / 10) + (price - s2.entryPrice) * (cap * (3 / 10) / s2.entryPrice)
      else cap
    ({ s2 with equityCurve := s2.equityCurve ++ [equity] },
     { led2 with mtmCurve := led2.mtmCurve ++ [led2.cash + (led2.qty : ℚ) * price] })

/-- One day of `BacktestEngine.run`: the signal of `get_signal(df, i)`
is only consulted when flat, and computing it is pure, so the day step
is `engineDayWith` at that signal. -/
noncomputable def engineDay (cap : ℚ) (closes : List ℚ)
    (sl : EngineState × SpecLedger) (i : ℕ) : EngineState × SpecLedger :=
  engineDayWith cap closes (engineGetSignal closes i) sl i

/-- `BacktestEngine.run`: fold the day step over all rows, then force a
liquidating sell at the final close if still long (which appends no
Equity Point). -/
noncomputable def engineRun (cap : ℚ) (closes : List ℚ) :
    EngineState × SpecLedger :=
  let init : EngineState × SpecLedger :=
    (⟨false, 0, [], 0, 0, 0, []⟩, ⟨cap, 0, []⟩)
  let r := (List.range closes.length).foldl (engineDay cap closes) init
  if r.1.position = true then
    engineExec cap .SELL (closeAt closes (closes.length - 1))
      (closes.length - 1) r
  else r

/-! ## Chart backtest loop (`backtest_v3.py`, `backtest_with_chart`)

The v3 loop trades through explicit `capital`/`shares` variables with a
20/60 `MAStrategy`; its Equity Point is `capital + shares * price`
while long and `capital` while flat.  The same spec-side mark-to-market
ledger is threaded alongside. -/

/-- The `golden_cross` column of `MAStrategy.calculate`:
`(ma_short > ma_long).astype(int)` (a `NaN` comparison is false, so
undefined rows give `0`). -/
def v3CrossAt (closes : List ℚ) (s l t : ℕ) : ℤ :=
  match maAt closes s t, maAt closes l t with
  | some a, some b => if a > b then 1 else 0
  | _, _ => 0

/-- The `cross_change` column: `golden_cross.diff()`. -/
def v3CrossChangeAt (closes : List ℚ) (s l t : ℕ) : Option ℤ :=
  if t = 0 ∨ closes.length ≤ t then none
  else some (v3CrossAt closes s l t - v3CrossAt closes s l (t - 1))

/-- `MAStrategy.get_signal` at row `i`: `0` before row `long_ma + 10`,
otherwise `±1` on a `cross_change` of `±1` and `0` otherwise. -/
def v3GetSignal (closes : List ℚ) (s l i : ℕ) : ℤ :=
  if i < l + 10 then 0
  else
    match v3CrossChangeAt closes s l i with
    | some d => if d = 1 then 1 else if d = -1 then -1 else 0
    | none => 0

/-- The loop variables of `backtest_with_chart`. -/
structure V3State where
  capital : ℚ
  position : Bool
  shares : ℤ
  entryPrice : ℚ
  tradeCount : ℕ
  equityCurve : List ℚ
deriving DecidableEq, Repr

/-- One day of the v3 loop, with the spec ledger observing: a buy while
flat fills `int(capital / price)` shares at the close, a sell while
long liquidates the whole position at the close, and the Equity Point
uses the post-trade state. -/
def v3Day (closes : List ℚ) (sl : V3State × SpecLedger) (i : ℕ) :
    V3State × SpecLedger :=
  let price := closeAt closes i
  let sig := v3GetSignal closes 20 60 i
  let s := sl.1
  let led := sl.2
  let step :=
    if sig = 1 ∧ s.position = false then
      let sh := truncQ (s.capital / price)
      (({ s with capital := s.capital - sh * price, position := true,
                 shares := sh, entryPrice := price,
                 tradeCount := s.tradeCount + 1 } : V3State),
       ({ led with cash := led.cash - sh * price, qty := led.qty + sh } : SpecLedger))
    else if sig = -1 ∧ s.position = true then
      (({ s with capital := s.capital + (s.shares : ℚ) * price, position := false,
                 tradeCount := s.tradeCount + 1 } : V3State),
       ({ led with cash := led.cash + (led.qty : ℚ) * price, qty := 0 } : SpecLedger))
    else (s, led)
  let equity :=
    if step.1.position = true then step.1.capital + (step.1.shares : ℚ) * price
    else step.1.capital
  ({ step.1 with equityCurve := step.1.equityCurve ++ [equity] },
   { step.2 with mtmCurve := step.2.mtmCurve ++ [step.2.cash + (step.2.qty : ℚ) * price] })

/-- `backtest_with_chart`'s simulation: initial capital 100000, loop
over rows `70 .. len-1`, then a final liquidation of any open position
at the last close (which appends no Equity Point). -/
def v3Run (closes : List ℚ) : V3State × SpecLedger :=
  let init : V3State × SpecLedger :=
    (⟨100000, false, 0, 0, 0, []⟩, ⟨100000, 0, []⟩)
  let r := (List.range' 70 (closes.length - 70)).foldl (v3Day closes) init
  if r.1.position = true then
    ({ r.1 with capital :=
         r.1.capital + (r.1.shares : ℚ) * closeAt closes (closes.length - 1) },
     { r.2 with
       cash := r.2.cash + (r.2.qty : ℚ) * closeAt closes (closes.length - 1),
       qty := 0 })
  else r

/-- The refinement invariant tying the v3 loop state to the spec
ledger: capital is exactly the ledger cash, the share count matches the
held quantity while long, the held quantity is zero while flat, and the
recorded Equity Points are exactly the mark-to-market values. -/
def V3Inv (sl : V3State × SpecLedger) : Prop :=
  sl.1.capital = sl.2.cash ∧
  (sl.1.position = true → sl.1.shares = sl.2.qty) ∧
  (sl.1.position = false → sl.2.qty = 0) ∧
  sl.1.equityCurve = sl.2.mtmCurve

instance : DecidablePred Call.valid := fun c =>
  match c with
  | .buy _ _ price quantity =>
      inferInstanceAs (Decidable (0 ≤ price ∧ 0 ≤ quantity))
  | .sell _ price quantity =>
      inferInstanceAs (Decidable (0 ≤ price ∧ 0 ≤ quantity.getD 0))

instance : DecidablePred Call.buyPositive := fun c =>
  match c with
  | .buy _ _ _ quantity => inferInstanceAs (Decidable (0 < quantity))
  | .sell _ _ _ => inferInstanceAs (Decidable True)

/-! ## Concrete price series used by the counterexamples -/

/-- A 61-row price series driving `BacktestEngine` into a buy on day
60: one row at 100, forty rows at 10000, ten at 90, ten at 110.  The
jump into row 1 makes the early rolling return-volatility large, the
last twenty returns keep the final volatility small (so the volatility
override stays off), `ma20 < ma60` keeps the regime `TREND_DOWN`, and
the 5/20 golden cross on the final row fires the trend `BUY`. -/
def ex61 : List ℚ :=
  [100] ++ List.replicate 40 10000 ++ List.replicate 10 90 ++
    List.replicate 10 110

/-- A 20-row constant series: long enough to pass `detect`'s
`len(df) < 20` guard, yet with zero rolling-volatility observations. -/
def c8series : List ℚ := List.replicate 20 1

/-! # Theorems

The arithmetic operations on `Rat` are `@[irreducible]` in the library,
which blocks `decide`-style evaluation during elaboration (the kernel
itself reduces them fine).  For the proofs below they are restored to
their natural transparency; every definition above was elaborated
before this point, so compiled code is unaffected. -/

set_option allowUnsafeReducibility true
attribute [local semireducible] Rat.ofScientific Rat.mul Rat.inv Rat.add Rat.sub

/-! ## Helper lemmas on the position ledger -/

theorem lookupPos_mem {l : List (String × Position)} {code : String}
    {pos : Position} (h : lookupPos l code = some pos) : (code, pos) ∈ l := by
  induction l with
  | nil => simp [lookupPos] at h
  | cons pr rest ih =>
    unfold lookupPos at h
    split at h
    · rename_i heq
      have h2 : pr.2 = pos := by injection h
      have hpr : pr = (code, pos) := by
        obtain ⟨a, b⟩ := pr
        simp only at heq h2
        rw [heq, h2]
      rw [← hpr]
      exact List.mem_cons_self pr rest
    · exact List.mem_cons_of_mem pr (ih h)

theorem lookupPos_erasePos (l : List (String × Position)) (code : String) :
    lookupPos (erasePos l code) code = none := by
  induction l with
  | nil => rfl
  | cons pr rest ih =>
    unfold erasePos at ih ⊢
    by_cases h : pr.1 = code
    · simp only [List.filter_cons]
      rw [if_neg (by simp [h])]
      exact ih
    · simp only [List.filter_cons]
      rw [if_pos (by simp [h])]
      unfold lookupPos
      rw [if_neg h]
      exact ih

/-- The clamped-sell computation shared by the C4 and C10 theorems: a
sell of everything (no quantity, or a request at least the held
quantity) credits `price * quantity`, returns it, and erases the key. -/
theorem sell_clamp_eq (p : Portfolio) (code : String) (price : ℚ)
    (quantity : Option ℚ) (pos : Position)
    (hlook : lookupPos p.positions code = some pos)
    (hreq : quantity = none ∨ ∃ q0, quantity = some q0 ∧ pos.quantity ≤ q0) :
    p.sell code price quantity =
      (price * pos.quantity,
       { p with cash := p.cash + price * pos.quantity,
                positions := erasePos p.positions code }) := by
  rcases hreq with rfl | ⟨q0, rfl, hle⟩
  · unfold Portfolio.sell
    rw [hlook]
    simp only [sub_self]
    rw [if_pos le_rfl]
  · unfold Portfolio.sell
    rw [hlook]
    simp only [ge_iff_le, if_pos hle, sub_self]
    rw [if_pos le_rfl]

/-! ## C2: take-profit gated by trailing pullback -/

/-- C2: for entry `e`, current `c` and high-water `h`, the take-profit
exit of `RiskManager.check_take_profit` triggers exactly when the
unrealized gain `(c - e)/e` has reached `take_profit_pct` and the
current price has pulled back to at most
`highest * (1 - trailing_stop_pct)`; in particular at the peak itself
(`h = c`, no pullback) it never triggers. -/
theorem take_profit_requires_pullback (tp ts e c h : ℚ) :
    (checkTakeProfit tp ts e c h = true ↔
      ((c - e) / e ≥ tp ∧ c ≤ h * (1 - ts))) ∧
    (0 < ts → 0 < c → checkTakeProfit tp ts e c c = false) := by
  constructor
  · unfold checkTakeProfit
    by_cases hp : (c - e) / e ≥ tp
    · simp only [if_pos hp, decide_eq_true_eq]
      exact ⟨fun hle => ⟨hp, hle⟩, fun hh => hh.2⟩
    · simp only [if_neg hp]
      constructor
      · intro hfalse
        exact absurd hfalse (by simp)
      · intro hh
        exact absurd hh.1 hp
  · intro hts hc
    unfold checkTakeProfit
    by_cases hp : (c - e) / e ≥ tp
    · simp only [if_pos hp, decide_eq_false_iff_not, not_le]
      nlinarith
    · simp only [if_neg hp]

/-- Witness for C2: with the backtest thresholds (take profit `0.20`,
trailing `0.08`), entry 100, high-water 140 and a pullback to 125
triggers, while sitting at the peak 130 (gain 30 percent, no pullback)
does not. -/
theorem take_profit_requires_pullback_witness :
    checkTakeProfit (1 / 5) (2 / 25) 100 125 140 = true ∧
    checkTakeProfit (1 / 5) (2 / 25) 100 130 130 = false :=
  ⟨((take_profit_requires_pullback (1 / 5) (2 / 25) 100 125 140).1).mpr
      ⟨by norm_num, by norm_num⟩,
   (take_profit_requires_pullback (1 / 5) (2 / 25) 100 130 130).2
      (by norm_num) (by norm_num)⟩

/-! ## C5: ensemble weights, score, and decision thresholds -/

/-- C5: for every triple of component signals and every regime, the
ensemble score is the weighted sum with the regime weight table
(TREND_UP 0.5/0.2/0.3, TREND_DOWN 0.5/0.1/0.4, MEAN_REVERSION
0.2/0.5/0.3), and the decision is `BUY` exactly when the score exceeds
`0.3`, `SELL` exactly when it is below `-0.3`, and `HOLD` otherwise. -/
theorem ensemble_score_weights_and_thresholds (t r l : Signal)
    (g : MarketRegime) :
    (ensembleScore t r l .TREND_UP =
      (t.value : ℚ) * (1 / 2) + (r.value : ℚ) * (1 / 5) +
        (l.value : ℚ) * (3 / 10)) ∧
    (ensembleScore t r l .TREND_DOWN =
      (t.value : ℚ) * (1 / 2) + (r.value : ℚ) * (1 / 10) +
        (l.value : ℚ) * (2 / 5)) ∧
    (ensembleScore t r l .MEAN_REVERSION =
      (t.value : ℚ) * (1 / 5) + (r.value : ℚ) * (1 / 2) +
        (l.value : ℚ) * (3 / 10)) ∧
    ((getEnsembleSignal t r l g).1 = .BUY ↔
      ensembleScore t r l g > 3 / 10) ∧
    ((getEnsembleSignal t r l g).1 = .SELL ↔
      ensembleScore t r l g < -(3 / 10)) ∧
    ((getEnsembleSignal t r l g).1 = .HOLD ↔
      (¬ ensembleScore t r l g > 3 / 10 ∧
       ¬ ensembleScore t r l g < -(3 / 10))) := by
  refine ⟨rfl, rfl, rfl, ?_, ?_, ?_⟩ <;>
    · unfold getEnsembleSignal ensembleDecision
      dsimp only
      split_ifs with h1 h2 <;> simp_all <;> linarith

/-! ## C6: insufficient-funds buys are rejected without mutation -/

/-- C6: whenever `price * quantity` strictly exceeds the available
cash, `Portfolio.buy` returns `false` and leaves the portfolio (cash
and position ledger) completely unchanged. -/
theorem buy_insufficient_funds_rejected (p : Portfolio) (code name : String)
    (price quantity : ℚ) (hcost : price * quantity > p.cash) :
    p.buy code name price quantity = (false, p) := by
  unfold Portfolio.buy
  rw [if_pos hcost]

/-- Witness for C6: the spec's scenario — 1000 shares at price 50 with
cash 10000 is rejected (cost 50000 exceeds cash) and the ledger is
unchanged. -/
theorem buy_insufficient_funds_rejected_witness :
    (Portfolio.mk0 10000).buy "X" "DemoStock" 50 1000 =
      (false, Portfolio.mk0 10000) :=
  buy_insufficient_funds_rejected (Portfolio.mk0 10000) "X" "DemoStock" 50 1000
    (by norm_num [Portfolio.mk0])

/-! ## C10: oversized sell requests are clamped to the held quantity -/

/-- C10: selling with no requested quantity, or with a request at least
the held quantity `q`, sells exactly `q`: the proceeds are
`price * q`, cash is credited by `price * q`, and the position's key is
erased from the ledger. -/
theorem sell_oversized_request_clamped (p : Portfolio) (code : String)
    (price : ℚ) (quantity : Option ℚ) (pos : Position)
    (hlook : lookupPos p.positions code = some pos)
    (hreq : quantity = none ∨ ∃ q0, quantity = some q0 ∧ pos.quantity ≤ q0) :
    p.sell code price quantity =
      (price * pos.quantity,
       { p with cash := p.cash + price * pos.quantity,
                positions := erasePos p.positions code }) :=
  sell_clamp_eq p code price quantity pos hlook hreq

/-- Witness for C10: holding 50 shares, a request for 99 sells exactly
the 50 held — proceeds `12 * 50 = 600`, cash credited, key gone. -/
theorem sell_oversized_request_clamped_witness :
    (⟨1000, 500, [("A", ⟨"A", "DemoA", 50, 10, "", 10⟩)]⟩ : Portfolio).sell
        "A" 12 (some 99) =
      (600, ⟨1000, 1100, []⟩) :=
  (sell_oversized_request_clamped
      (⟨1000, 500, [("A", ⟨"A", "DemoA", 50, 10, "", 10⟩)]⟩ : Portfolio)
      "A" 12 (some 99) ⟨"A", "DemoA", 50, 10, "", 10⟩
      (by decide) (Or.inr ⟨99, rfl, by norm_num⟩)).trans (by decide)

/-! ## C7: trend strategy fires only on fresh crossover events -/

/-- C7: below `long_ma` rows the trend strategy always holds; with
enough history it returns `BUY` exactly when the crossover-event column
is `+1` at the latest row, `SELL` exactly when it is `-1`, and `HOLD`
in every other case (in particular in a standing golden-cross state
with no fresh crossover at that row). -/
theorem trend_signal_only_on_cross_events (closes : List ℚ) (s l : ℕ) :
    (closes.length < l → trendGetSignal closes s l = .HOLD) ∧
    (l ≤ closes.length →
      ((trendGetSignal closes s l = .BUY ↔
          crossEventAt closes s l (closes.length - 1) = some 1) ∧
       (trendGetSignal closes s l = .SELL ↔
          crossEventAt closes s l (closes.length - 1) = some (-1)) ∧
       (trendGetSignal closes s l = .HOLD ↔
          (crossEventAt closes s l (closes.length - 1) ≠ some 1 ∧
           crossEventAt closes s l (closes.length - 1) ≠ some (-1))))) := by
  constructor
  · intro h
    unfold trendGetSignal
    rw [if_pos h]
  · intro h
    unfold trendGetSignal
    rw [if_neg (not_lt.mpr h)]
    cases hev : crossEventAt closes s l (closes.length - 1) with
    | none => simp
    | some d =>
      by_cases hd1 : d = 1
      · subst hd1
        simp
      · by_cases hd2 : d = -1
        · subst hd2
          simp
        · simp [hd1, hd2]

/-- Witness for C7: on the series `[3, 2, 1, 5]` with windows 2/3 a
golden cross forms at the last row (event `+1`), and the strategy
says `BUY`. -/
theorem trend_signal_only_on_cross_events_witness :
    trendGetSignal [3, 2, 1, 5] 2 3 = .BUY :=
  (((trend_signal_only_on_cross_events [3, 2, 1, 5] 2 3).2
    (by decide)).1).mpr (by decide)

/-! ## C8: the regime detector's insufficient-history guard -/

/-- C8 (amended): the detector's conservative default fires on fewer
than 20 price rows (the guard counts rows, not rolling-volatility
observations): every such series is classified `MEAN_REVERSION`. -/
theorem detect_short_series_mean_reversion (closes : List ℚ)
    (h : closes.length < 20) : detect closes = .MEAN_REVERSION := by
  unfold detect
  rw [if_pos h]

/-- Witness for the amended C8: a 5-row series is classified
`MEAN_REVERSION`. -/
theorem detect_short_series_mean_reversion_witness :
    detect (List.replicate 5 (1 : ℚ)) = .MEAN_REVERSION :=
  detect_short_series_mean_reversion (List.replicate 5 (1 : ℚ)) (by decide)

/-- Counterexample to C8 as stated: the 20-row constant series yields
zero rolling-volatility observations — fewer than 20 — yet the
detector classifies it `TREND_DOWN`, not `MEAN_REVERSION`: with 20
rows the `len(df) < 20` guard passes, every rolling volatility is
`NaN` (so the volatility override's comparison is false), and
`ma20 > ma60` is a comparison against the `NaN` `ma60`, which is false,
giving `TREND_DOWN`. -/
theorem detect_few_vol_observations_counterexample :
    (volVars c8series).length < 20 ∧ detect c8series = .TREND_DOWN := by
  constructor
  · decide
  · have hnone : volVarAt c8series (c8series.length - 1) = none := by decide
    have hvol : ¬ volHigh c8series := by
      unfold volHigh
      rw [hnone]
      exact fun hfalse => hfalse
    unfold detect
    rw [if_neg (by decide : ¬ c8series.length < 20)]
    rw [if_neg hvol]
    rw [show maAt c8series 20 (c8series.length - 1) = some 1 from by decide]
    rw [show maAt c8series 60 (c8series.length - 1) = none from by decide]

/-! ## C3 and C4: ledger invariants under arbitrary call sequences -/

theorem applyCall_nonneg {p : Portfolio} {c : Call} (hc : c.valid)
    (hcash : 0 ≤ p.cash) (hq : ∀ pr ∈ p.positions, 0 ≤ pr.2.quantity) :
    0 ≤ (applyCall p c).cash ∧
      ∀ pr ∈ (applyCall p c).positions, 0 ≤ pr.2.quantity := by
  cases c with
  | buy code name price quantity =>
    obtain ⟨hprice, hqty⟩ := hc
    unfold applyCall Portfolio.buy
    dsimp only
    split
    · exact ⟨hcash, hq⟩
    · rename_i hcost
      have hcost' : price * quantity ≤ p.cash := not_lt.mp hcost
      split
      · rename_i pos hl
        refine ⟨sub_nonneg.mpr hcost', ?_⟩
        intro pr hpr
        rcases List.mem_map.mp hpr with ⟨pr0, hpr0, rfl⟩
        split
        · exact add_nonneg (hq _ (lookupPos_mem hl)) hqty
        · exact hq pr0 hpr0
      · refine ⟨sub_nonneg.mpr hcost', ?_⟩
        intro pr hpr
        rcases List.mem_append.mp hpr with hold | hnew
        · exact hq pr hold
        · rw [List.mem_singleton.mp hnew]
          exact hqty
  | sell code price quantity =>
    obtain ⟨hprice, hq0⟩ := hc
    unfold applyCall Portfolio.sell
    dsimp only
    split
    · exact ⟨hcash, hq⟩
    · rename_i pos hl
      have hposq : 0 ≤ pos.quantity := hq _ (lookupPos_mem hl)
      have key : ∀ q : ℚ, 0 ≤ q →
          (0 ≤ p.cash + price * q ∧
           ∀ pr ∈ (if pos.quantity - q ≤ 0 then erasePos p.positions code
                    else setPos p.positions code
                      { pos with quantity := pos.quantity - q }),
             0 ≤ pr.2.quantity) := by
        intro q hqnn
        refine ⟨add_nonneg hcash (mul_nonneg hprice hqnn), ?_⟩
        intro pr hpr
        split at hpr
        · exact hq pr (List.mem_filter.mp hpr).1
        · rename_i hgt
          rcases List.mem_map.mp hpr with ⟨pr0, hpr0, rfl⟩
          split
          · exact le_of_lt (not_le.mp hgt)
          · exact hq pr0 hpr0
      refine key _ ?_
      rcases quantity with _ | q0
      · exact hposq
      · dsimp only
        split
        · exact hposq
        · simpa using hq0

theorem applyCalls_nonneg (calls : List Call) (p : Portfolio)
    (hcalls : ∀ c ∈ calls, c.valid) (hcash : 0 ≤ p.cash)
    (hq : ∀ pr ∈ p.positions, 0 ≤ pr.2.quantity) :
    0 ≤ (applyCalls p calls).cash ∧
      ∀ pr ∈ (applyCalls p calls).positions, 0 ≤ pr.2.quantity := by
  induction calls generalizing p with
  | nil => exact ⟨hcash, hq⟩
  | cons c rest ih =>
    have step := applyCall_nonneg (hcalls c (List.mem_cons_self c rest)) hcash hq
    have hrest : ∀ c' ∈ rest, c'.valid :=
      fun c' hc' => hcalls c' (List.mem_cons_of_mem c hc')
    simp only [applyCalls, List.foldl_cons] at *
    exact ih (applyCall p c) hrest step.1 step.2

/-- C3: starting from any portfolio with nonnegative cash (and a
well-formed ledger of nonnegative position quantities), no finite
sequence of buy and sell calls in the trading domain can drive the cash
balance negative: buys are rejected outright when the cost exceeds
cash, and sells only credit cash. -/
theorem portfolio_cash_never_negative (p : Portfolio) (calls : List Call)
    (hcash : 0 ≤ p.cash)
    (hq : ∀ pr ∈ p.positions, 0 ≤ pr.2.quantity)
    (hcalls : ∀ c ∈ calls, c.valid) :
    0 ≤ (applyCalls p calls).cash :=
  (applyCalls_nonneg calls p hcalls hcash hq).1

/-- Witness for C3: a fresh 100000-cash portfolio through a buy, a
full sell, an oversized (rejected) buy and a partial sell keeps cash
nonnegative. -/
theorem portfolio_cash_never_negative_witness :
    0 ≤ (applyCalls (Portfolio.mk0 100000)
      [Call.buy "A" "StockA" 50 1000, Call.sell "A" 55 none,
       Call.buy "B" "StockB" 10 20000, Call.buy "A" "StockA" 40 100,
       Call.sell "A" 42 (some 30)]).cash :=
  portfolio_cash_never_negative (Portfolio.mk0 100000) _ (by decide)
    (by simp [Portfolio.mk0]) (by decide)

theorem applyCall_positive {p : Portfolio} {c : Call} (hc : c.buyPositive)
    (hq : ∀ pr ∈ p.positions, 0 < pr.2.quantity) :
    ∀ pr ∈ (applyCall p c).positions, 0 < pr.2.quantity := by
  cases c with
  | buy code name price quantity =>
    have hqty : 0 < quantity := hc
    unfold applyCall Portfolio.buy
    dsimp only
    split
    · exact hq
    · split
      · rename_i pos hl
        intro pr hpr
        rcases List.mem_map.mp hpr with ⟨pr0, hpr0, rfl⟩
        split
        · exact add_pos (hq _ (lookupPos_mem hl)) hqty
        · exact hq pr0 hpr0
      · intro pr hpr
        rcases List.mem_append.mp hpr with hold | hnew
        · exact hq pr hold
        · rw [List.mem_singleton.mp hnew]
          exact hqty
  | sell code price quantity =>
    unfold applyCall Portfolio.sell
    dsimp only
    split
    · exact hq
    · rename_i pos hl
      have key : ∀ q : ℚ,
          ∀ pr ∈ (if pos.quantity - q ≤ 0 then erasePos p.positions code
                   else setPos p.positions code
                     { pos with quantity := pos.quantity - q }),
            0 < pr.2.quantity := by
        intro q pr hpr
        split at hpr
        · exact hq pr (List.mem_filter.mp hpr).1
        · rename_i hgt
          rcases List.mem_map.mp hpr with ⟨pr0, hpr0, rfl⟩
          split
          · exact not_le.mp hgt
          · exact hq pr0 hpr0
      exact key _

theorem applyCalls_positive (calls : List Call) (p : Portfolio)
    (hbuys : ∀ c ∈ calls, c.buyPositive)
    (hq : ∀ pr ∈ p.positions, 0 < pr.2.quantity) :
    ∀ pr ∈ (applyCalls p calls).positions, 0 < pr.2.quantity := by
  induction calls generalizing p with
  | nil => exact hq
  | cons c rest ih =>
    have step := applyCall_positive (hbuys c (List.mem_cons_self c rest)) hq
    have hrest : ∀ c' ∈ rest, c'.buyPositive :=
      fun c' hc' => hbuys c' (List.mem_cons_of_mem c hc')
    simp only [applyCalls, List.foldl_cons] at *
    exact ih (applyCall p c) hrest step

/-- C4: starting from a well-formed ledger, after any sequence of buy
and sell calls whose buys have positive quantity, every symbol present
in the ledger has strictly positive quantity; and any sell that brings
a position's quantity to zero (an all-by-default or
at-least-the-held-quantity request — the only way quantity reaches
zero) leaves the symbol key absent from the ledger. -/
theorem positions_positive_and_zero_removed (p : Portfolio)
    (calls : List Call)
    (hq : ∀ pr ∈ p.positions, 0 < pr.2.quantity)
    (hbuys : ∀ c ∈ calls, c.buyPositive) :
    (∀ pr ∈ (applyCalls p calls).positions, 0 < pr.2.quantity) ∧
    (∀ (code : String) (price : ℚ) (quantity : Option ℚ) (pos : Position),
      lookupPos (applyCalls p calls).positions code = some pos →
      (quantity = none ∨ ∃ q0, quantity = some q0 ∧ pos.quantity ≤ q0) →
      lookupPos (((applyCalls p calls).sell code price quantity).2).positions
        code = none) := by
  refine ⟨applyCalls_positive calls p hbuys hq, ?_⟩
  intro code price quantity pos hl hreq
  rw [sell_clamp_eq _ code price quantity pos hl hreq]
  exact lookupPos_erasePos _ code

/-- Witness for C4: a buy, a partial sell and a second-symbol buy leave
only positive positions, and a clamped sell of either symbol removes
its key. -/
theorem positions_positive_and_zero_removed_witness :
    (∀ pr ∈ (applyCalls (Portfolio.mk0 1000)
        [Call.buy "A" "StockA" 10 50, Call.sell "A" 12 (some 20),
         Call.buy "B" "StockB" 5 10]).positions, 0 < pr.2.quantity) ∧
    (∀ (code : String) (price : ℚ) (quantity : Option ℚ) (pos : Position),
      lookupPos (applyCalls (Portfolio.mk0 1000)
        [Call.buy "A" "StockA" 10 50, Call.sell "A" 12 (some 20),
         Call.buy "B" "StockB" 5 10]).positions code = some pos →
      (quantity = none ∨ ∃ q0, quantity = some q0 ∧ pos.quantity ≤ q0) →
      lookupPos (((applyCalls (Portfolio.mk0 1000)
        [Call.buy "A" "StockA" 10 50, Call.sell "A" 12 (some 20),
         Call.buy "B" "StockB" 5 10]).sell code price quantity).2).positions
        code = none) :=
  positions_positive_and_zero_removed (Portfolio.mk0 1000)
    [Call.buy "A" "StockA" 10 50, Call.sell "A" 12 (some 20),
     Call.buy "B" "StockB" 5 10]
    (by simp [Portfolio.mk0]) (by decide)

/-! ## C9: derived indicator columns have no look-ahead -/

theorem windowAt_take (closes : List ℚ) (w t u : ℕ) (hu : u ≤ t) :
    windowAt (closes.take (t + 1)) w u = windowAt closes w u := by
  unfold windowAt
  rw [List.take_take, Nat.min_eq_left (by omega)]

theorem closeAt_take (closes : List ℚ) (t u : ℕ) (hu : u ≤ t) :
    closeAt (closes.take (t + 1)) u = closeAt closes u := by
  unfold closeAt
  rw [List.getD_eq_getElem?_getD, List.getD_eq_getElem?_getD,
      List.getElem?_take_of_lt (by omega)]

theorem maAt_take (closes : List ℚ) (w t u : ℕ) (hu : u ≤ t) :
    maAt (closes.take (t + 1)) w u = maAt closes w u := by
  unfold maAt
  have hlen : (u < (closes.take (t + 1)).length ∧ w ≤ u + 1) ↔
      (u < closes.length ∧ w ≤ u + 1) := by
    rw [List.length_take]
    omega
  by_cases h : u < closes.length ∧ w ≤ u + 1
  · rw [if_pos (hlen.mpr h), if_pos h, windowAt_take closes w t u hu]
  · rw [if_neg (fun hh => h (hlen.mp hh)), if_neg h]

theorem varAt_take (closes : List ℚ) (w t u : ℕ) (hu : u ≤ t) :
    varAt (closes.take (t + 1)) w u = varAt closes w u := by
  unfold varAt
  have hlen : (u < (closes.take (t + 1)).length ∧ w ≤ u + 1) ↔
      (u < closes.length ∧ w ≤ u + 1) := by
    rw [List.length_take]
    omega
  by_cases h : u < closes.length ∧ w ≤ u + 1
  · rw [if_pos (hlen.mpr h), if_pos h, windowAt_take closes w t u hu]
  · rw [if_neg (fun hh => h (hlen.mp hh)), if_neg h]

theorem crossStateAt_take (closes : List ℚ) (s l t u : ℕ) (hu : u ≤ t) :
    crossStateAt (closes.take (t + 1)) s l u = crossStateAt closes s l u := by
  unfold crossStateAt
  rw [maAt_take closes s t u hu, maAt_take closes l t u hu]

theorem crossEventAt_take (closes : List ℚ) (s l t u : ℕ) (hu : u ≤ t) :
    crossEventAt (closes.take (t + 1)) s l u = crossEventAt closes s l u := by
  unfold crossEventAt
  have hg : (u = 0 ∨ (closes.take (t + 1)).length ≤ u) ↔
      (u = 0 ∨ closes.length ≤ u) := by
    rw [List.length_take]
    omega
  by_cases h : u = 0 ∨ closes.length ≤ u
  · rw [if_pos (hg.mpr h), if_pos h]
  · rw [if_neg (fun hh => h (hg.mp hh)), if_neg h,
        crossStateAt_take closes s l t u hu,
        crossStateAt_take closes s l t (u - 1) (by omega)]

theorem bandStdAt_take (closes : List ℚ) (w t u : ℕ) (hu : u ≤ t) :
    bandStdAt (closes.take (t + 1)) w u = bandStdAt closes w u := by
  unfold bandStdAt
  rw [varAt_take closes w t u hu]

theorem bandUpperAt_take (closes : List ℚ) (w : ℕ) (k : ℚ) (t u : ℕ)
    (hu : u ≤ t) :
    bandUpperAt (closes.take (t + 1)) w k u = bandUpperAt closes w k u := by
  unfold bandUpperAt
  rw [maAt_take closes w t u hu, bandStdAt_take closes w t u hu]

theorem bandLowerAt_take (closes : List ℚ) (w : ℕ) (k : ℚ) (t u : ℕ)
    (hu : u ≤ t) :
    bandLowerAt (closes.take (t + 1)) w k u = bandLowerAt closes w k u := by
  unfold bandLowerAt
  rw [maAt_take closes w t u hu, bandStdAt_take closes w t u hu]

theorem bandPositionAt_take (closes : List ℚ) (w : ℕ) (k : ℚ) (t u : ℕ)
    (hu : u ≤ t) :
    bandPositionAt (closes.take (t + 1)) w k u = bandPositionAt closes w k u := by
  unfold bandPositionAt
  rw [bandLowerAt_take closes w k t u hu, bandUpperAt_take closes w k t u hu,
      closeAt_take closes t u hu]

theorem column_getElem?_take {α : Type} (f : List ℚ → ℕ → α) (closes : List ℚ)
    (t : ℕ) (hf : f (closes.take (t + 1)) t = f closes t) :
    ((List.range (closes.take (t + 1)).length).map (f (closes.take (t + 1))))[t]? =
      ((List.range closes.length).map (f closes))[t]? := by
  by_cases h : t < closes.length
  · have h1 : (closes.take (t + 1)).length = t + 1 := by
      rw [List.length_take]
      omega
    rw [h1, List.getElem?_map, List.getElem?_map,
        List.getElem?_range (by omega : t < t + 1), List.getElem?_range h]
    simp [hf]
  · rw [List.take_of_length_le (by omega)]

/-- C9: every derived indicator column — moving averages (and the band
middle), cross state, cross event, band deviation, band bounds, and
band position — has the same value at row `t` whether the columns are
computed on the prefix `bars[0..t]` or on the full series and read at
row `t`: no derived value depends on bars after row `t`. -/
theorem indicator_columns_no_lookahead (closes : List ℚ) (t w s l : ℕ)
    (k : ℚ) :
    (maColumn w (closes.take (t + 1)))[t]? = (maColumn w closes)[t]? ∧
    (crossStateColumn s l (closes.take (t + 1)))[t]? =
      (crossStateColumn s l closes)[t]? ∧
    (crossEventColumn s l (closes.take (t + 1)))[t]? =
      (crossEventColumn s l closes)[t]? ∧
    (bandStdColumn w (closes.take (t + 1)))[t]? = (bandStdColumn w closes)[t]? ∧
    (bandUpperColumn w k (closes.take (t + 1)))[t]? =
      (bandUpperColumn w k closes)[t]? ∧
    (bandLowerColumn w k (closes.take (t + 1)))[t]? =
      (bandLowerColumn w k closes)[t]? ∧
    (bandPositionColumn w k (closes.take (t + 1)))[t]? =
      (bandPositionColumn w k closes)[t]? := by
  unfold maColumn crossStateColumn crossEventColumn bandStdColumn
    bandUpperColumn bandLowerColumn bandPositionColumn
  exact ⟨column_getElem?_take (fun c u => maAt c w u) closes t
            (maAt_take closes w t t le_rfl),
         column_getElem?_take (fun c u => crossStateAt c s l u) closes t
            (crossStateAt_take closes s l t t le_rfl),
         column_getElem?_take (fun c u => crossEventAt c s l u) closes t
            (crossEventAt_take closes s l t t le_rfl),
         column_getElem?_take (fun c u => bandStdAt c w u) closes t
            (bandStdAt_take closes w t t le_rfl),
         column_getElem?_take (fun c u => bandUpperAt c w k u) closes t
            (bandUpperAt_take closes w k t t le_rfl),
         column_getElem?_take (fun c u => bandLowerAt c w k u) closes t
            (bandLowerAt_take closes w k t t le_rfl),
         column_getElem?_take (fun c u => bandPositionAt c w k u) closes t
            (bandPositionAt_take closes w k t t le_rfl)⟩

/-! ## C1: Equity Points versus mark-to-market portfolio value -/

theorem engineExec_hold (cap price : ℚ) (day : ℕ)
    (sl : EngineState × SpecLedger) :
    engineExec cap .HOLD price day sl = sl := by
  obtain ⟨s, led⟩ := sl
  simp [engineExec]

theorem engineCheckExit_flat (cap price : ℚ) (day : ℕ)
    (sl : EngineState × SpecLedger) (h : sl.1.position = false) :
    engineCheckExit cap price day sl = sl := by
  unfold engineCheckExit
  rw [if_pos h]

theorem engineGetSignal_before_day60 (closes : List ℚ) (i : ℕ) (h : i < 60) :
    engineGetSignal closes i = .HOLD := by
  unfold engineGetSignal
  rw [if_pos h]

theorem engine_fold_flat (cap : ℚ) (closes : List ℚ) (l : List ℕ)
    (E M : List ℚ) (hsig : ∀ i ∈ l, engineGetSignal closes i = .HOLD) :
    l.foldl (engineDay cap closes)
        (⟨false, 0, [], 0, 0, 0, E⟩, ⟨cap, 0, M⟩) =
      (⟨false, 0, [], 0, 0, 0, E ++ List.replicate l.length cap⟩,
       ⟨cap, 0, M ++ List.replicate l.length cap⟩) := by
  induction l generalizing E M with
  | nil => simp
  | cons i rest ih =>
    rw [List.foldl_cons]
    have hstep : engineDay cap closes
        (⟨false, 0, [], 0, 0, 0, E⟩, ⟨cap, 0, M⟩) i =
        (⟨false, 0, [], 0, 0, 0, E ++ [cap]⟩, ⟨cap, 0, M ++ [cap]⟩) := by
      unfold engineDay
      rw [hsig i (List.mem_cons_self i rest)]
      simp only [engineDayWith]
      rw [engineCheckExit_flat cap (closeAt closes i) i _ rfl]
      rw [if_pos rfl, engineExec_hold]
      simp
    rw [hstep,
        ih (E ++ [cap]) (M ++ [cap])
          (fun j hj => hsig j (List.mem_cons_of_mem i hj))]
    simp [List.append_assoc, List.replicate_succ]

set_option maxRecDepth 100000 in
theorem trendGetSignal_ex61 : trendGetSignal ex61 5 20 = .BUY := by decide

set_option maxRecDepth 100000 in
theorem bandGetSignal_ex61 : bandGetSignal ex61 20 2 = .HOLD := by decide

theorem le_sum_of_mem_of_nonneg (f : ℚ → ℝ) (hf : ∀ x, 0 ≤ f x) :
    ∀ (l : List ℚ) (v : ℚ), v ∈ l → f v ≤ (l.map f).sum := by
  intro l
  induction l with
  | nil =>
    intro v hv
    cases hv
  | cons a rest ih =>
    intro v hv
    rcases List.mem_cons.mp hv with rfl | hv2
    · have h0 : 0 ≤ (rest.map f).sum := by
        apply List.sum_nonneg
        intro x hx
        rcases List.mem_map.mp hx with ⟨u, _, rfl⟩
        exact hf u
      simp only [List.map_cons, List.sum_cons]
      linarith
    · have hrec := ih v hv2
      have h0 : 0 ≤ f a := hf a
      simp only [List.map_cons, List.sum_cons]
      linarith

set_option maxRecDepth 100000 in
theorem volHigh_ex61_false : ¬ volHigh ex61 := by
  have hsome : volVarAt ex61 (ex61.length - 1) =
      some (sampleVar (retWindow ex61 60)) := by decide
  unfold volHigh
  rw [hsome]
  intro hh
  obtain ⟨hne, hgt⟩ := hh
  have hlen : (volVars ex61).length = 41 := by decide
  have hmem : (9801 / 20 : ℚ) ∈ volVars ex61 := by decide
  have hsum : Real.sqrt ((9801 / 20 : ℚ) : ℝ) ≤
      ((volVars ex61).map (fun u => Real.sqrt (u : ℝ))).sum :=
    le_sum_of_mem_of_nonneg (fun u => Real.sqrt (u : ℝ))
      (fun x => Real.sqrt_nonneg _) (volVars ex61) (9801 / 20) hmem
  have hlow : (205 / 24 : ℝ) ≤ Real.sqrt ((9801 / 20 : ℚ) : ℝ) := by
    apply Real.le_sqrt_of_sq_le
    push_cast
    norm_num
  have hvc : ((sampleVar (retWindow ex61 60) : ℚ) : ℝ) ≤ 1 / 16 := by
    have h16 : sampleVar (retWindow ex61 60) ≤ 1 / 16 := by decide
    calc ((sampleVar (retWindow ex61 60) : ℚ) : ℝ) ≤ ((1 / 16 : ℚ) : ℝ) := by
          exact_mod_cast h16
      _ = 1 / 16 := by norm_num
  have hup : Real.sqrt ((sampleVar (retWindow ex61 60) : ℚ) : ℝ) ≤ 1 / 4 := by
    rw [show (1 / 4 : ℝ) = Real.sqrt ((1 / 4) ^ 2) from
      (Real.sqrt_sq (by norm_num)).symm]
    apply Real.sqrt_le_sqrt
    rw [show ((1 / 4 : ℝ)) ^ 2 = 1 / 16 by norm_num]
    exact hvc
  have h41 : ((volVars ex61).length : ℝ) = 41 := by
    rw [hlen]
    norm_num
  rw [h41] at hgt
  linarith

set_option maxRecDepth 100000 in
theorem detect_ex61_trend_down : detect ex61 = .TREND_DOWN := by
  unfold detect
  rw [if_neg (by decide : ¬ ex61.length < 20), if_neg volHigh_ex61_false]
  rw [show maAt ex61 20 (ex61.length - 1) = some 100 from by decide]
  rw [show maAt ex61 60 (ex61.length - 1) = some 6700 from by decide]
  decide

set_option maxRecDepth 100000 in
theorem engineGetSignal_ex61_day60 : engineGetSignal ex61 60 = .BUY := by
  simp only [engineGetSignal]
  rw [if_neg (by norm_num : ¬ (60 : ℕ) < 60)]
  rw [show ex61.take (60 + 1) = ex61 from by decide]
  rw [trendGetSignal_ex61, bandGetSignal_ex61, detect_ex61_trend_down]
  decide

set_option maxRecDepth 100000 in
theorem engine_day60 :
    engineDay 100000 ex61
        (⟨false, 0, [], 0, 0, 0, List.replicate 60 100000⟩,
         ⟨100000, 0, List.replicate 60 100000⟩) 60 =
      (⟨true, 4411 / 40, [⟨60, .BUY, 4411 / 40, 272, 0⟩], 1, 0, 0,
          List.replicate 60 100000 ++ [12000000 / 401]⟩,
       ⟨350026 / 5, 272, List.replicate 60 100000 ++ [499626 / 5]⟩) := by
  unfold engineDay
  rw [engineGetSignal_ex61_day60]
  decide

set_option maxRecDepth 100000 in
theorem engineRun_ex61 :
    engineRun 100000 ex61 =
      (⟨false, 0,
          [⟨60, .BUY, 4411 / 40, 272, 0⟩, ⟨60, .SELL, 4389 / 40, 0, -(2 / 401)⟩],
          1, 0, 1, List.replicate 60 100000 ++ [12000000 / 401]⟩,
       ⟨499252 / 5, 0, List.replicate 60 100000 ++ [499626 / 5]⟩) := by
  simp only [engineRun]
  rw [show ex61.length = 61 from by decide]
  rw [show List.range 61 = List.range 60 ++ [60] from by decide]
  rw [List.foldl_append]
  rw [engine_fold_flat 100000 ex61 (List.range 60) [] []
      (fun i hi => engineGetSignal_before_day60 ex61 i (List.mem_range.mp hi))]
  simp only [List.nil_append, List.length_range]
  rw [List.foldl_cons, List.foldl_nil]
  rw [engine_day60]
  decide

/-- Counterexample to C1 as stated: on the 61-day series `ex61`,
`BacktestEngine.run` buys on day 60 and appends an Equity Point of
`12000000/401` (about 29925.19, the position-only formula
`0.3 * capital * close / entry`), while the mark-to-market value of the
portfolio after that day's trade — cash after debiting the 272 shares
bought at the effective price, plus `272 * close` — is `499626/5`
(99925.20): the appended Equity Point omits the uninvested 70 percent
of capital, so it does not equal cash plus position times close. -/
theorem equity_point_differs_from_mark_to_market :
    (engineRun 100000 ex61).1.equityCurve[60]? = some (12000000 / 401) ∧
    (engineRun 100000 ex61).2.mtmCurve[60]? = some (499626 / 5) ∧
    (12000000 / 401 : ℚ) ≠ 499626 / 5 := by
  rw [engineRun_ex61]
  refine ⟨by decide, by decide, by norm_num⟩

theorem v3Day_inv (closes : List ℚ) (i : ℕ) (sl : V3State × SpecLedger)
    (h : V3Inv sl) : V3Inv (v3Day closes sl i) := by
  obtain ⟨s, led⟩ := sl
  obtain ⟨h1, h2, h3, h4⟩ := h
  simp only [V3Inv] at h1 h2 h3 h4 ⊢
  simp only [v3Day]
  by_cases hb : v3GetSignal closes 20 60 i = 1 ∧ s.position = false
  · rw [if_pos hb]
    have hq0 : led.qty = 0 := h3 hb.2
    refine ⟨?_, ?_, ?_, ?_⟩
    · simp [h1]
    · intro _
      simp [hq0]
    · intro hfalse
      simp at hfalse
    · simp only
      rw [h4, h1, hq0]
      push_cast
      ring_nf
  · rw [if_neg hb]
    by_cases hs : v3GetSignal closes 20 60 i = -1 ∧ s.position = true
    · rw [if_pos hs]
      have hsh : s.shares = led.qty := h2 hs.2
      refine ⟨?_, ?_, ?_, ?_⟩
      · simp [h1, hsh]
      · intro hfalse
        simp at hfalse
      · intro _
        rfl
      · simp only
        rw [h4, h1, hsh]
        simp
    · rw [if_neg hs]
      refine ⟨h1, h2, h3, ?_⟩
      by_cases hp : s.position = true
      · simp only [hp]
        rw [h4, h1, h2 hp]
        simp
      · have hp' : s.position = false := by
          cases hpos : s.position
          · rfl
          · exact absurd hpos hp
        simp only [hp']
        rw [h4, h1, h3 hp']
        push_cast
        ring_nf

theorem v3_fold_inv (closes : List ℚ) (l : List ℕ) (sl : V3State × SpecLedger)
    (h : V3Inv sl) : V3Inv (l.foldl (v3Day closes) sl) := by
  induction l generalizing sl with
  | nil => exact h
  | cons i rest ih =>
    rw [List.foldl_cons]
    exact ih (v3Day closes sl i) (v3Day_inv closes i sl h)

/-- C1 (amended): in the `backtest_v3.py` chart-backtest loop the claim
holds — every appended Equity Point equals the mark-to-market total
value of the portfolio after that day's trades, cash plus held share
count times that day's close, with realized gains from earlier round
trips carried in cash.  (The `backtest.py` engine, by contrast, records
a position-only formula; see the counterexample.) -/
theorem v3_equity_curve_is_mark_to_market (closes : List ℚ) :
    (v3Run closes).1.equityCurve = (v3Run closes).2.mtmCurve := by
  have hinit : V3Inv
      ((⟨100000, false, 0, 0, 0, []⟩ : V3State),
       (⟨100000, 0, []⟩ : SpecLedger)) := by
    refine ⟨rfl, ?_, fun _ => rfl, rfl⟩
    intro hfalse
    simp at hfalse
  have hinv := v3_fold_inv closes (List.range' 70 (closes.length - 70)) _ hinit
  simp only [v3Run]
  split
  · exact hinv.2.2.2
  · exact hinv.2.2.2

/-- Witness for C5: a trend `BUY` with neutral reversion and advisory
in an uptrend scores `0.5 > 0.3` and decides `BUY`. -/
theorem ensemble_score_weights_and_thresholds_witness :
    (getEnsembleSignal .BUY .HOLD .HOLD .TREND_UP).1 = .BUY :=
  ((ensemble_score_weights_and_thresholds .BUY .HOLD .HOLD .TREND_UP).2.2.2.1).mpr
    (by norm_num [ensembleScore, ensembleWeights, Signal.value])

/-! ## Fidelity of the squared Bollinger-band comparisons

The executable `bandGetSignal` renders the source's band tests by
squaring; the following theorems prove it equal to the literal real
formulation `bandGetSignalR`. -/

theorem sampleVar_nonneg (l : List ℚ) : 0 ≤ sampleVar l := by
  unfold sampleVar
  rcases l with _ | ⟨a, rest⟩
  · simp
  · apply div_nonneg
    · apply List.sum_nonneg
      intro x hx
      rcases List.mem_map.mp hx with ⟨u, _, rfl⟩
      positivity
    · have h1 : (1 : ℚ) ≤ ((a :: rest).length : ℚ) := by
        have : 1 ≤ (a :: rest).length := by simp
        exact_mod_cast this
      linarith

theorem mul_sqrt_lt_iff (V x kk : ℝ) (hV : 0 < V) (hkk : 0 ≤ kk) :
    (kk * Real.sqrt V < x) ↔ (0 < x ∧ kk ^ 2 * V < x ^ 2) := by
  have hs : 0 < Real.sqrt V := Real.sqrt_pos.mpr hV
  have hsq : Real.sqrt V ^ 2 = V := Real.sq_sqrt hV.le
  constructor
  · intro h
    have hx : 0 < x := lt_of_le_of_lt (mul_nonneg hkk hs.le) h
    refine ⟨hx, ?_⟩
    have h2 : (kk * Real.sqrt V) ^ 2 < x ^ 2 :=
      pow_lt_pow_left₀ h (mul_nonneg hkk hs.le) two_ne_zero
    rw [mul_pow, hsq] at h2
    exact h2
  · rintro ⟨hx, hsqlt⟩
    have hW : (kk * Real.sqrt V) ^ 2 < x ^ 2 := by
      rw [mul_pow, hsq]
      exact hsqlt
    exact (pow_lt_pow_iff_left₀ (mul_nonneg hkk hs.le) hx.le two_ne_zero).mp hW

theorem band_lower_iff (M C V K : ℚ) (hV : 0 < V) (hK : 0 ≤ K) :
    (((C : ℚ) : ℝ) < ((M : ℚ) : ℝ) - ((K : ℚ) : ℝ) * Real.sqrt ((V : ℚ) : ℝ)) ↔
      (M - C > 0 ∧ (M - C) ^ 2 > K ^ 2 * V) := by
  have base := mul_sqrt_lt_iff ((V : ℚ) : ℝ) (((M - C : ℚ)) : ℝ) ((K : ℚ) : ℝ)
      (by exact_mod_cast hV) (by exact_mod_cast hK)
  constructor
  · intro h
    have hR : ((K : ℚ) : ℝ) * Real.sqrt ((V : ℚ) : ℝ) < ((M - C : ℚ) : ℝ) := by
      push_cast
      linarith
    obtain ⟨h1, h2⟩ := base.mp hR
    exact ⟨by exact_mod_cast h1, by exact_mod_cast h2⟩
  · rintro ⟨h1, h2⟩
    have hR : ((K : ℚ) : ℝ) * Real.sqrt ((V : ℚ) : ℝ) < ((M - C : ℚ) : ℝ) :=
      base.mpr ⟨by exact_mod_cast h1, by exact_mod_cast h2⟩
    push_cast at hR
    linarith

theorem band_upper_iff (M C V K : ℚ) (hV : 0 < V) (hK : 0 ≤ K) :
    (((C : ℚ) : ℝ) > ((M : ℚ) : ℝ) + ((K : ℚ) : ℝ) * Real.sqrt ((V : ℚ) : ℝ)) ↔
      (C - M > 0 ∧ (C - M) ^ 2 > K ^ 2 * V) := by
  have base := mul_sqrt_lt_iff ((V : ℚ) : ℝ) (((C - M : ℚ)) : ℝ) ((K : ℚ) : ℝ)
      (by exact_mod_cast hV) (by exact_mod_cast hK)
  constructor
  · intro h
    have hR : ((K : ℚ) : ℝ) * Real.sqrt ((V : ℚ) : ℝ) < ((C - M : ℚ) : ℝ) := by
      push_cast
      linarith
    obtain ⟨h1, h2⟩ := base.mp hR
    exact ⟨by exact_mod_cast h1, by exact_mod_cast h2⟩
  · rintro ⟨h1, h2⟩
    have hR : ((K : ℚ) : ℝ) * Real.sqrt ((V : ℚ) : ℝ) < ((C - M : ℚ) : ℝ) :=
      base.mpr ⟨by exact_mod_cast h1, by exact_mod_cast h2⟩
    push_cast at hR
    linarith

theorem band_position_lt_iff (M C V K : ℚ) (hV : 0 < V) (hK : 0 < K) :
    ((((C : ℚ) : ℝ) - (((M : ℚ) : ℝ) - ((K : ℚ) : ℝ) * Real.sqrt ((V : ℚ) : ℝ))) /
        ((((M : ℚ) : ℝ) + ((K : ℚ) : ℝ) * Real.sqrt ((V : ℚ) : ℝ)) -
         (((M : ℚ) : ℝ) - ((K : ℚ) : ℝ) * Real.sqrt ((V : ℚ) : ℝ))) < 1 / 5) ↔
      (M - C > 0 ∧ (M - C) ^ 2 > (3 / 5 * K) ^ 2 * V) := by
  have hs : 0 < Real.sqrt ((V : ℚ) : ℝ) :=
    Real.sqrt_pos.mpr (by exact_mod_cast hV)
  have hkR : (0 : ℝ) < ((K : ℚ) : ℝ) := by exact_mod_cast hK
  have hden : (0 : ℝ) <
      (((M : ℚ) : ℝ) + ((K : ℚ) : ℝ) * Real.sqrt ((V : ℚ) : ℝ)) -
        (((M : ℚ) : ℝ) - ((K : ℚ) : ℝ) * Real.sqrt ((V : ℚ) : ℝ)) := by
    have : (0 : ℝ) < ((K : ℚ) : ℝ) * Real.sqrt ((V : ℚ) : ℝ) := mul_pos hkR hs
    linarith
  rw [div_lt_iff₀ hden]
  have base := mul_sqrt_lt_iff ((V : ℚ) : ℝ) (((M - C : ℚ)) : ℝ)
      (((3 / 5 * K : ℚ)) : ℝ) (by exact_mod_cast hV)
      (by push_cast; linarith)
  constructor
  · intro h
    have hR : ((3 / 5 * K : ℚ) : ℝ) * Real.sqrt ((V : ℚ) : ℝ) <
        ((M - C : ℚ) : ℝ) := by
      push_cast at h ⊢
      nlinarith [hs]
    obtain ⟨h1, h2⟩ := base.mp hR
    exact ⟨by exact_mod_cast h1, by exact_mod_cast h2⟩
  · rintro ⟨h1, h2⟩
    have hR : ((3 / 5 * K : ℚ) : ℝ) * Real.sqrt ((V : ℚ) : ℝ) <
        ((M - C : ℚ) : ℝ) :=
      base.mpr ⟨by exact_mod_cast h1, by exact_mod_cast h2⟩
    push_cast at hR
    nlinarith [hs]

theorem band_position_gt_iff (M C V K : ℚ) (hV : 0 < V) (hK : 0 < K) :
    ((((C : ℚ) : ℝ) - (((M : ℚ) : ℝ) - ((K : ℚ) : ℝ) * Real.sqrt ((V : ℚ) : ℝ))) /
        ((((M : ℚ) : ℝ) + ((K : ℚ) : ℝ) * Real.sqrt ((V : ℚ) : ℝ)) -
         (((M : ℚ) : ℝ) - ((K : ℚ) : ℝ) * Real.sqrt ((V : ℚ) : ℝ))) > 4 / 5) ↔
      (C - M > 0 ∧ (C - M) ^ 2 > (3 / 5 * K) ^ 2 * V) := by
  have hs : 0 < Real.sqrt ((V : ℚ) : ℝ) :=
    Real.sqrt_pos.mpr (by exact_mod_cast hV)
  have hkR : (0 : ℝ) < ((K : ℚ) : ℝ) := by exact_mod_cast hK
  have hden : (0 : ℝ) <
      (((M : ℚ) : ℝ) + ((K : ℚ) : ℝ) * Real.sqrt ((V : ℚ) : ℝ)) -
        (((M : ℚ) : ℝ) - ((K : ℚ) : ℝ) * Real.sqrt ((V : ℚ) : ℝ)) := by
    have : (0 : ℝ) < ((K : ℚ) : ℝ) * Real.sqrt ((V : ℚ) : ℝ) := mul_pos hkR hs
    linarith
  rw [gt_iff_lt, lt_div_iff₀ hden]
  have base := mul_sqrt_lt_iff ((V : ℚ) : ℝ) (((C - M : ℚ)) : ℝ)
      (((3 / 5 * K : ℚ)) : ℝ) (by exact_mod_cast hV)
      (by push_cast; linarith)
  constructor
  · intro h
    have hR : ((3 / 5 * K : ℚ) : ℝ) * Real.sqrt ((V : ℚ) : ℝ) <
        ((C - M : ℚ) : ℝ) := by
      push_cast at h ⊢
      nlinarith [hs]
    obtain ⟨h1, h2⟩ := base.mp hR
    exact ⟨by exact_mod_cast h1, by exact_mod_cast h2⟩
  · rintro ⟨h1, h2⟩
    have hR : ((3 / 5 * K : ℚ) : ℝ) * Real.sqrt ((V : ℚ) : ℝ) <
        ((C - M : ℚ) : ℝ) :=
      base.mpr ⟨by exact_mod_cast h1, by exact_mod_cast h2⟩
    push_cast at hR
    nlinarith [hs]

/-- The executable squared-comparison rendering `bandGetSignal` agrees
with the literal real-arithmetic rendering `bandGetSignalR` of
`MeanReversionStrategy.get_signal` for every positive band
multiplier. -/
theorem bandGetSignalR_eq_bandGetSignal (closes : List ℚ) (w : ℕ) (k : ℚ)
    (hk : 0 < k) : bandGetSignalR closes w k = bandGetSignal closes w k := by
  unfold bandGetSignalR bandGetSignal
  by_cases hlen : closes.length < w
  · rw [if_pos hlen, if_pos hlen]
  · rw [if_neg hlen, if_neg hlen]
    dsimp only
    by_cases hv0 : sampleVar (windowAt closes w (closes.length - 1)) = 0
    · rw [hv0]
      simp
    · have hvpos : 0 < sampleVar (windowAt closes w (closes.length - 1)) :=
        lt_of_le_of_ne (sampleVar_nonneg _) (Ne.symm hv0)
      have hs : 0 < Real.sqrt
          ((sampleVar (windowAt closes w (closes.length - 1)) : ℚ) : ℝ) :=
        Real.sqrt_pos.mpr (by exact_mod_cast hvpos)
      rw [if_neg (ne_of_gt hs), if_neg hv0]
      exact if_congr
        (band_lower_iff _ _ _ _ hvpos hk.le) rfl
        (if_congr (band_upper_iff _ _ _ _ hvpos hk.le) rfl
          (if_congr (band_position_lt_iff _ _ _ _ hvpos hk) rfl
            (if_congr (band_position_gt_iff _ _ _ _ hvpos hk) rfl rfl)))

/-- The take-profit branch of `BacktestEngine.check_stop_loss_take_profit`
compares the entry price against `close * (1 - trailing_stop)` built
from the current close — it consults no high-water price.  With the
configured thresholds (take profit `0.20`, trailing `0.08`), once the
gain test `profit ≥ 0.20` passes, this comparison already holds, so the
engine-side exit sells at the take-profit line with no pullback
required — unlike `RiskManager.check_take_profit`, which the C2 claim
describes and which gates the exit on a pullback from the peak. -/
theorem engine_take_profit_condition_vacuous (entry price : ℚ)
    (hentry : 0 < entry) (hgain : (price - entry) / entry ≥ 1 / 5) :
    entry < price * (1 - 2 / 25) := by
  rw [ge_iff_le, le_div_iff₀ hentry] at hgain
  nlinarith
